import Mathlib

/-!
Shallow embedding of `src/version.rs` (the version-management core of the
crates.io registry): the `Version` store, the yank/unyank state machine
(`modify_yank`), the version encoder (`encodable`), and the row
deserializer (`Model::from_row`).  External collaborators (the relational
store, the git-backed index synchronizer, the semver library, crate
ownership) are modelled explicitly: the database is a record of rows,
fallible statements consult an explicit fault specification, and every
relational write / index-synchronization call is recorded in a trace of
events.
-/

/-! ### Semantic versions

Model of the external `semver` crate as used by `version.rs`: a parsed
version is a `major.minor.patch` triple (pre-release and build metadata,
unused by the claims, are elided); `semverToString` is the canonical
rendering `Version::to_string` and `semverParse` is
`semver::Version::parse`, which reads each numeric component with a
leading-zero-tolerant `from_str`. -/
structure SemVer where
  major : Nat
  minor : Nat
  patch : Nat
deriving DecidableEq

/-- Decimal digit characters of `n`, most significant first, with explicit
fuel (`fuel > n` suffices). -/
def natDigitsAux : Nat → Nat → List Char
  | 0, _ => []
  | fuel + 1, n =>
    if n < 10 then [Nat.digitChar n]
    else natDigitsAux fuel (n / 10) ++ [Nat.digitChar (n % 10)]

/-- Decimal digit characters of `n`, most significant first. -/
def natChars (n : Nat) : List Char := natDigitsAux (n + 1) n

/-- Is `c` a decimal digit? -/
def isDigitCh (c : Char) : Bool := 48 ≤ c.toNat && c.toNat ≤ 57

/-- Numeric value of a digit character. -/
def digitVal (c : Char) : Nat := c.toNat - 48

/-- Value of a digit string, most significant first. -/
def charsToNat (cs : List Char) : Nat :=
  cs.foldl (fun acc c => acc * 10 + digitVal c) 0

/-- Parse a (nonempty, all-digit) numeric component; tolerates leading
zeros, like Rust's `from_str::<uint>`. -/
def parseNumComp (cs : List Char) : Option Nat :=
  if cs ≠ [] ∧ cs.all isDigitCh then some (charsToNat cs) else none

/-- Split a character list on `'.'` (always returns at least one group). -/
def splitDot : List Char → List (List Char)
  | [] => [[]]
  | c :: cs =>
    if c = '.' then [] :: splitDot cs
    else
      match splitDot cs with
      | [] => [[c]]
      | g :: gs => (c :: g) :: gs

/-- Canonical string form of a parsed version (`Version::to_string`). -/
def semverToString (v : SemVer) : String :=
  String.mk (natChars v.major ++ '.' :: natChars v.minor ++ '.' :: natChars v.patch)

/-- `semver::Version::parse`: split on dots, require exactly three numeric
components. -/
def semverParse (s : String) : Option SemVer :=
  match splitDot s.data with
  | [a, b, c] =>
    match parseNumComp a, parseNumComp b, parseNumComp c with
    | some x, some y, some z => some ⟨x, y, z⟩
    | _, _, _ => none
  | _ => none

/-- `Version::valid` (`src/version.rs` line 98): pure syntactic check. -/
def Version.valid (s : String) : Bool := (semverParse s).isSome

/-! ### Round-trip facts about the semver model -/

theorem natDigitsAux_fuel (f₁ : Nat) : ∀ f₂ n, n < f₁ → n < f₂ →
    natDigitsAux f₁ n = natDigitsAux f₂ n := by
  induction f₁ with
  | zero => intro f₂ n h; omega
  | succ f ih =>
    intro f₂ n h₁ h₂
    obtain ⟨f', rfl⟩ : ∃ k, f₂ = k + 1 := ⟨f₂ - 1, by omega⟩
    simp only [natDigitsAux]
    by_cases hn : n < 10
    · simp [hn]
    · simp only [hn, if_false]
      rw [ih f' (n / 10) (by omega) (by omega)]

theorem natDigitsAux_eq_natChars {fuel n : Nat} (h : n < fuel) :
    natDigitsAux fuel n = natChars n :=
  natDigitsAux_fuel fuel (n + 1) n h (Nat.lt_succ_self n)

theorem digitChar_isDigit {d : Nat} (h : d < 10) : isDigitCh (Nat.digitChar d) = true := by
  interval_cases d <;> decide

theorem digitVal_digitChar {d : Nat} (h : d < 10) : digitVal (Nat.digitChar d) = d := by
  interval_cases d <;> decide

theorem digitChar_ne_dot {d : Nat} (h : d < 10) : Nat.digitChar d ≠ '.' := by
  interval_cases d <;> decide

theorem natChars_ne_nil (n : Nat) : natChars n ≠ [] := by
  unfold natChars natDigitsAux
  by_cases h : n < 10 <;> simp [h]

theorem natChars_spec (n : Nat) :
    (natChars n).all isDigitCh = true ∧ charsToNat (natChars n) = n := by
  induction n using Nat.strong_induction_on with
  | _ n ih =>
    by_cases h : n < 10
    · constructor
      · unfold natChars natDigitsAux
        simp [h, digitChar_isDigit h]
      · unfold natChars natDigitsAux charsToNat
        simp [h, digitVal_digitChar h]
    · have hrec := ih (n / 10) (by omega)
      have hstep : natChars n = natChars (n / 10) ++ [Nat.digitChar (n % 10)] := by
        show natDigitsAux (n + 1) n = _
        simp only [natDigitsAux]
        rw [if_neg h, natDigitsAux_eq_natChars (show n / 10 < n from by omega)]
      rw [hstep]
      constructor
      · simp only [List.all_append, Bool.and_eq_true]
        refine ⟨hrec.1, ?_⟩
        simp [digitChar_isDigit (Nat.mod_lt n (by omega))]
      · unfold charsToNat at hrec ⊢
        rw [List.foldl_append]
        simp only [List.foldl_cons, List.foldl_nil]
        rw [hrec.2, digitVal_digitChar (Nat.mod_lt n (by omega))]
        omega

theorem natChars_no_dot (n : Nat) : '.' ∉ natChars n := by
  intro hmem
  have hall := (natChars_spec n).1
  rw [List.all_eq_true] at hall
  have := hall '.' hmem
  simp [isDigitCh] at this

theorem parseNumComp_natChars (n : Nat) : parseNumComp (natChars n) = some n := by
  unfold parseNumComp
  simp [natChars_ne_nil n, (natChars_spec n).1, (natChars_spec n).2]

theorem splitDot_no_dot {xs : List Char} (h : '.' ∉ xs) : splitDot xs = [xs] := by
  induction xs with
  | nil => rfl
  | cons c cs ih =>
    simp only [List.mem_cons, not_or] at h
    unfold splitDot
    rw [if_neg (fun hc => h.1 hc.symm), ih h.2]

theorem splitDot_append {xs : List Char} (ys : List Char) (h : '.' ∉ xs) :
    splitDot (xs ++ '.' :: ys) = xs :: splitDot ys := by
  induction xs with
  | nil => simp [splitDot]
  | cons c cs ih =>
    simp only [List.mem_cons, not_or] at h
    simp only [List.cons_append, splitDot]
    rw [if_neg (fun hc => h.1 hc.symm), List.append_eq, ih h.2]

/-- Parsing the canonical rendering of a version recovers it: the model
counterpart of the semver crate's parse/display coherence. -/
theorem semverParse_toString (v : SemVer) : semverParse (semverToString v) = some v := by
  unfold semverParse semverToString
  simp only
  rw [show (natChars v.major ++ '.' :: natChars v.minor ++ '.' :: natChars v.patch) =
        natChars v.major ++ '.' :: (natChars v.minor ++ '.' :: natChars v.patch) by simp]
  rw [splitDot_append _ (natChars_no_dot v.major),
      splitDot_append _ (natChars_no_dot v.minor),
      splitDot_no_dot (natChars_no_dot v.patch)]
  simp [parseNumComp_natChars]

/-! ### JSON feature blobs

Model of `serialize::json` as used for the `features` column: a structured
JSON value; `json_encode` is `json::encode` of a `HashMap<String, Vec<String>>`
(the map modelled as an association list) and `json_decode` is `json::decode`
at that type, failing on any other shape. -/
inductive Json where
  | obj : List (String × Json) → Json
  | arr : List Json → Json
  | str : String → Json
  | num : Int → Json

/-- `HashMap<String, Vec<String>>`, modelled as an association list. -/
abbrev FeatureMap := List (String × List String)

/-- `json::encode` of a feature map. -/
def json_encode (m : FeatureMap) : Json :=
  .obj (m.map fun p => (p.1, .arr (p.2.map .str)))

/-- Decode a JSON array of strings. -/
def jsonDecodeStrList : List Json → Option (List String)
  | [] => some []
  | .str s :: rest => (jsonDecodeStrList rest).map (s :: ·)
  | _ :: _ => none

/-- Decode the entries of a JSON object as a feature map. -/
def jsonDecodeEntries : List (String × Json) → Option FeatureMap
  | [] => some []
  | (k, .arr xs) :: rest =>
    match jsonDecodeStrList xs, jsonDecodeEntries rest with
    | some vs, some m => some ((k, vs) :: m)
    | _, _ => none
  | _ :: _ => none

/-- `json::decode::<HashMap<String, Vec<String>>>`. -/
def json_decode : Json → Option FeatureMap
  | .obj kvs => jsonDecodeEntries kvs
  | _ => none

theorem jsonDecodeStrList_encode (vs : List String) :
    jsonDecodeStrList (vs.map Json.str) = some vs := by
  induction vs with
  | nil => rfl
  | cons v rest ih => simp [jsonDecodeStrList, ih]

theorem jsonDecodeEntries_encode (m : FeatureMap) :
    jsonDecodeEntries (m.map fun p => (p.1, Json.arr (p.2.map Json.str))) = some m := by
  induction m with
  | nil => rfl
  | cons p rest ih => simp [jsonDecodeEntries, jsonDecodeStrList_encode, ih]

theorem json_decode_encode (m : FeatureMap) : json_decode (json_encode m) = some m := by
  simp [json_decode, json_encode, jsonDecodeEntries_encode]

/-! ### Error taxonomy and outcomes

`CargoError` models `util::CargoResult`'s error type as used here:
`internal` (`util::internal`), `human` (`util::human`), and `dbError` for a
failure bubbled up from the relational store by `try!`.  `Outcome` is the
result of running a fallible operation; `panicked` records that the Rust
code would panic (`unwrap()` on a `None`/`Err`), which is not a value of
the error taxonomy. -/
inductive CargoError where
  | internal (msg : String)
  | human (msg : String)
  | dbError
deriving DecidableEq

inductive Outcome (α : Type) where
  | ok (a : α)
  | err (e : CargoError)
  | panicked

/-- Is this outcome an `Internal` error of the taxonomy? -/
def Outcome.isInternalErr {α : Type} : Outcome α → Bool
  | .err (.internal _) => true
  | _ => false

/-! ### Relational rows and database state -/

/-- A row of the `versions` table. -/
structure VersionRow where
  id : Int
  crate_id : Int
  num : String
  updated_at : Int
  created_at : Int
  downloads : Int
  features : Option Json
  yanked : Bool

/-- A row of the `version_authors` table. -/
structure AuthorRow where
  version_id : Int
  user_id : Option Int
  name : String
deriving DecidableEq

/-- The relational store visible to `version.rs`. -/
structure DB where
  versions : List VersionRow
  version_authors : List AuthorRow
  nextId : Int

/-- Fault specification for the fallible external statements: which
statements fail when executed. -/
structure Faults where
  insertNoRow : Bool
  authorFailures : List String
  yankUpdateFails : Bool
  gitYankFails : Bool

/-- The fault-free schedule: every statement succeeds. -/
def noFaults : Faults := ⟨false, [], false, false⟩

/-- Observable side effects: a committed relational write of a version's
yanked flag, or an invocation of the index synchronizer (`git::yank`). -/
inductive Event where
  | relWrite (versionId : Int) (yanked : Bool)
  | indexSync (crateName : String) (num : String) (yanked : Bool)
deriving DecidableEq

/-- Count the relational yanked-flag writes in a trace. -/
def countRelWrites (evs : List Event) : Nat :=
  evs.countP fun e => match e with | .relWrite _ _ => true | _ => false

/-- Count the index-synchronization invocations in a trace. -/
def countIndexSyncs (evs : List Event) : Nat :=
  evs.countP fun e => match e with | .indexSync _ _ _ => true | _ => false

/-! ### The `Version` model and `Model::from_row` -/

/-- The Rust `Version` struct (`src/version.rs` lines 23-33). -/
structure Version where
  id : Int
  crate_id : Int
  num : SemVer
  updated_at : Int
  created_at : Int
  downloads : Int
  features : FeatureMap
  yanked : Bool
deriving DecidableEq

/-- Second half of `from_row`: parse the stored `num` column; the Rust code
calls `.unwrap()` on the parse result, so a malformed column is a panic. -/
def fromRowNum (row : VersionRow) (f : FeatureMap) : Outcome Version :=
  match semverParse row.num with
  | some v => .ok ⟨row.id, row.crate_id, v, row.updated_at, row.created_at,
                   row.downloads, f, row.yanked⟩
  | none => .panicked

/-- `Model::from_row` for `Version` (`src/version.rs` lines 189-205): a
null `features` column decodes to the empty map; a present column is
`json::decode(...).unwrap()`, so a blob that fails to deserialize is a
panic, not an error value. -/
def from_row (row : VersionRow) : Outcome Version :=
  match row.features with
  | some blob =>
    match json_decode blob with
    | some f => fromRowNum row f
    | none => .panicked
  | none => fromRowNum row []

/-! ### `VersionStore` operations -/

/-- `Version::find_by_num` (`src/version.rs` lines 66-73): the supplied
semver is first rendered to its canonical string (`num.to_string()`), the
`versions` table is filtered on `crate_id = $1 AND num = $2`, and an empty
result is `Ok(None)`. -/
def Version.find_by_num (db : DB) (crate_id : Int) (num : SemVer) :
    Outcome (Option Version) :=
  let numStr := semverToString num
  match db.versions.find? (fun r => r.crate_id == crate_id && r.num == numStr) with
  | none => .ok none
  | some r =>
    match from_row r with
    | .ok v => .ok (some v)
    | .err e => .err e
    | .panicked => .panicked

/-- `Version::add_author` (`src/version.rs` lines 173-179): insert a
free-text author row (`user_id` null); a failing statement propagates via
`try!`. -/
def Version.add_author (v : Version) (faults : Faults) (db : DB) (name : String) :
    Outcome Unit × DB :=
  if faults.authorFailures.contains name then (.err .dbError, db)
  else (.ok (), { db with
    version_authors := db.version_authors ++ [⟨v.id, none, name⟩] })

/-- The author loop of `Version::insert` (lines 92-94): insert each author
in order, stopping at the first failure, which propagates via `try!`. -/
def addAuthorsLoop (v : Version) (faults : Faults) :
    List String → DB → Outcome Unit × DB
  | [], db => (.ok (), db)
  | name :: rest, db =>
    match v.add_author faults db name with
    | (.ok _, db₁) => addAuthorsLoop v faults rest db₁
    | (.err e, db₁) => (.err e, db₁)
    | (.panicked, db₁) => (.panicked, db₁)

/-- `Version::insert` (`src/version.rs` lines 75-96): render the semver
canonically, serialize the features, run
`INSERT INTO versions (crate_id, num, updated_at, created_at, downloads,
features) VALUES ($1, $2, $3, $3, 0, $4) RETURNING *` with `$3 = now`, then
`from_row` the returned row (requiring one, else
`internal("no version returned")`), then insert one author row per supplied
name. -/
def Version.insert (db : DB) (faults : Faults) (now : Int) (crate_id : Int)
    (num : SemVer) (features : FeatureMap) (authors : List String) :
    Outcome Version × DB :=
  let numStr := semverToString num
  let blob := json_encode features
  if faults.insertNoRow then
    (.err (.internal "no version returned"), db)
  else
    let row : VersionRow := ⟨db.nextId, crate_id, numStr, now, now, 0, some blob, false⟩
    let db₁ : DB := { db with versions := db.versions ++ [row], nextId := db.nextId + 1 }
    match from_row row with
    | .ok ret =>
      match addAuthorsLoop ret faults authors db₁ with
      | (.ok _, db₂) => (.ok ret, db₂)
      | (.err e, db₂) => (.err e, db₂)
      | (.panicked, db₂) => (.panicked, db₂)
    | .err e => (.err e, db₁)
    | .panicked => (.panicked, db₁)

/-- The enclosing caller-scoped transaction: the new state is committed
only when the operation succeeds; on error or panic it rolls back to the
original state. -/
def commitTxn {α : Type} (db₀ : DB) (r : Outcome α × DB) : DB :=
  match r.1 with
  | .ok _ => r.2
  | _ => db₀

/-! ### The yank/unyank state machine -/

/-- The acting identity (a registered user). -/
structure UserRec where
  id : Int
deriving DecidableEq

/-- The owning crate, with its owner list as resolved by the external
crate-ownership collaborator (`krate.owners(tx)`). -/
structure CrateRec where
  id : Int
  name : String
  owners : List UserRec

/-- `Version::yank` (`src/version.rs` lines 181-185):
`UPDATE versions SET yanked = $1 WHERE id = $2`.  A successful statement
updates every row with the given id and is recorded as a relational write;
a failing statement changes nothing and propagates via `try!`. -/
def Version.yank (v : Version) (yanked : Bool) (faults : Faults) (db : DB) :
    Outcome Unit × DB × List Event :=
  if faults.yankUpdateFails then (.err .dbError, db, [])
  else (.ok (),
    { db with versions := db.versions.map fun r =>
        if r.id == v.id then { r with yanked := yanked } else r },
    [.relWrite v.id yanked])

/-- `git::yank` (invoked at `src/version.rs` line 347): the external index
synchronizer, called with (crate name, canonical version string, new yanked
flag).  The invocation itself is always recorded; the call may then fail. -/
def gitYank (faults : Faults) (crateName : String) (num : SemVer) (yanked : Bool) :
    Outcome Unit × List Event :=
  ((if faults.gitYankFails then .err .dbError else .ok ()),
   [.indexSync crateName (semverToString num) yanked])

/-- `modify_yank` (`src/version.rs` lines 336-353), after
`version_and_crate` has resolved the version and crate: check that the
acting user is among the crate's owners (else
`human("must already be an owner to yank or unyank")`); if the current
yanked flag differs from the requested one, run `Version::yank` and then
`git::yank`; finally answer `{ ok: true }`. -/
def modify_yank (krate : CrateRec) (version : Version) (user : UserRec)
    (yanked : Bool) (faults : Faults) (db : DB) : Outcome Bool × DB × List Event :=
  if !(krate.owners.any fun u => u.id == user.id) then
    (.err (.human "must already be an owner to yank or unyank"), db, [])
  else if version.yanked != yanked then
    match Version.yank version yanked faults db with
    | (.ok _, db₁, evs₁) =>
      match gitYank faults krate.name version.num yanked with
      | (.ok _, evs₂) => (.ok true, db₁, evs₁ ++ evs₂)
      | (.err e, evs₂) => (.err e, db₁, evs₁ ++ evs₂)
      | (.panicked, evs₂) => (.panicked, db₁, evs₁ ++ evs₂)
    | (.err e, db₁, evs₁) => (.err e, db₁, evs₁)
    | (.panicked, db₁, evs₁) => (.panicked, db₁, evs₁)
  else (.ok true, db, [])

/-- `yank` (`src/version.rs` lines 328-330): delegate with `yanked = true`. -/
def yankOp (krate : CrateRec) (version : Version) (user : UserRec)
    (faults : Faults) (db : DB) : Outcome Bool × DB × List Event :=
  modify_yank krate version user true faults db

/-- `unyank` (`src/version.rs` lines 332-334): delegate with `yanked = false`. -/
def unyankOp (krate : CrateRec) (version : Version) (user : UserRec)
    (faults : Faults) (db : DB) : Outcome Bool × DB × List Event :=
  modify_yank krate version user false faults db

/-! ### The version encoder -/

/-- The `links` sub-record of the wire representation. -/
structure VersionLinks where
  dependencies : String
  version_downloads : String
  authors : String
deriving DecidableEq

/-- The wire representation (`EncodableVersion`). -/
structure EncodableVersion where
  id : Int
  krate : String
  num : String
  dl_path : String
  updated_at : String
  created_at : String
  downloads : Int
  features : FeatureMap
  yanked : Bool
  links : VersionLinks
deriving DecidableEq

/-- Modelled from the spec: the repository's `::encode_time` helper lives
outside `src/`; per the spec it renders a timestamp in "a fixed textual
format". -/
def encode_time (t : Int) : String := "time:" ++ toString t

/-- `Version::encodable` (`src/version.rs` lines 102-124): a pure
transform; the download path and the three links are `format!` instances
of the template `/api/v1/crates/{crate_name}/{num}/...` over the crate
name and the canonical semver string. -/
def Version.encodable (v : Version) (crate_name : String) : EncodableVersion :=
  let num := semverToString v.num
  { dl_path := "/api/v1/crates/" ++ crate_name ++ "/" ++ num ++ "/download"
    num := num
    id := v.id
    krate := crate_name
    updated_at := encode_time v.updated_at
    created_at := encode_time v.created_at
    downloads := v.downloads
    features := v.features
    yanked := v.yanked
    links :=
      { dependencies := "/api/v1/crates/" ++ crate_name ++ "/" ++ num ++ "/dependencies"
        version_downloads := "/api/v1/crates/" ++ crate_name ++ "/" ++ num ++ "/downloads"
        authors := "/api/v1/crates/" ++ crate_name ++ "/" ++ num ++ "/authors" } }

/-- The fixed path template shared by the download path and the three
links: `/api/v1/crates/{crate_name}/{num}/{tail}`. -/
def apiPath (crate_name num tail : String) : String :=
  "/api/v1/crates/" ++ crate_name ++ "/" ++ num ++ "/" ++ tail

/-- The canonical (normalized) form of a semver spelling: parse it and
render the result canonically. -/
def normalizeSemver (s : String) : Option String :=
  (semverParse s).map semverToString

/-! ### Sample data for concrete instantiations -/

/-- A crate owner (uid 5). -/
def sampleUser : UserRec := ⟨5⟩

/-- An identity that is not an owner (uid 7). -/
def otherUser : UserRec := ⟨7⟩

/-- The crate `demo`, owned by uid 5. -/
def sampleCrate : CrateRec := ⟨1, "demo", [⟨5⟩]⟩

/-- Version `1.0.0` of crate 1, not yanked. -/
def sampleVersion : Version := ⟨1, 1, ⟨1, 0, 0⟩, 0, 0, 0, [], false⟩

/-- The row backing `sampleVersion` (null feature blob). -/
def sampleRow : VersionRow := ⟨1, 1, "1.0.0", 0, 0, 0, none, false⟩

/-- A database holding just `sampleRow`. -/
def sampleDB : DB := ⟨[sampleRow], [], 2⟩

/-- A row whose feature blob is present but is not an object of string
arrays, so `json::decode` fails on it. -/
def badFeatureRow : VersionRow := ⟨1, 1, "1.0.0", 0, 0, 7, some (Json.num 3), false⟩

/-- A second version, `2.0.0` of the same crate. -/
def sampleVersion2 : Version := ⟨2, 1, ⟨2, 0, 0⟩, 0, 0, 0, [], false⟩

/-- A sample feature map. -/
def sampleFeatures : FeatureMap := [("extra", ["a", "b"])]

/-- A fault schedule on which inserting the author row for `bob` fails. -/
def bobFails : Faults := ⟨false, ["bob"], false, false⟩

/-! ### Helper lemmas -/

theorem from_row_fields {r : VersionRow} {v : Version} (h : from_row r = .ok v) :
    v.id = r.id ∧ v.crate_id = r.crate_id ∧ v.yanked = r.yanked := by
  unfold from_row fromRowNum at h
  repeat' split at h
  all_goals simp_all
  all_goals (cases h; simp)

theorem from_row_set_yanked {r : VersionRow} {v : Version} (y : Bool)
    (h : from_row r = .ok v) :
    from_row { r with yanked := y } = .ok { v with yanked := y } := by
  obtain ⟨i, c, n, u, cr, d, f, yk⟩ := r
  unfold from_row fromRowNum at h ⊢
  cases f with
  | none =>
    dsimp only at h ⊢
    cases hp : semverParse n with
    | none => rw [hp] at h; dsimp only at h; simp at h
    | some sv =>
      rw [hp] at h
      dsimp only at h
      injection h with h2
      subst h2
      rfl
  | some blob =>
    dsimp only at h ⊢
    cases hd : json_decode blob with
    | none => rw [hd] at h; dsimp only at h; simp at h
    | some fm =>
      rw [hd] at h
      dsimp only at h
      cases hp : semverParse n with
      | none => rw [hp] at h; dsimp only at h; simp at h
      | some sv =>
        rw [hp] at h
        dsimp only at h
        injection h with h2
        subst h2
        rfl

theorem find?_map_pres {α : Type} (p : α → Bool) (f : α → α)
    (hp : ∀ x, p (f x) = p x) :
    ∀ l : List α, (l.map f).find? p = (l.find? p).map f := by
  intro l
  induction l with
  | nil => rfl
  | cons x xs ih =>
    by_cases hx : p x = true
    · rw [List.map_cons, List.find?_cons_of_pos _ (by rw [hp]; exact hx),
          List.find?_cons_of_pos _ hx, Option.map_some']
    · have hx' : p x = false := by simpa using hx
      rw [List.map_cons, List.find?_cons_of_neg _ (by simp [hp, hx']),
          List.find?_cons_of_neg _ (by simp [hx']), ih]

theorem find?_append_none {α : Type} {p : α → Bool} {l₁ : List α} (l₂ : List α)
    (h : l₁.find? p = none) : (l₁ ++ l₂).find? p = l₂.find? p := by
  induction l₁ with
  | nil => rfl
  | cons x xs ih =>
    rw [List.find?_cons] at h
    split at h
    · cases h
    · rw [List.cons_append, List.find?_cons_of_neg _ (by simp_all), ih h]

theorem find_by_num_yank_write {db : DB} {cid : Int} {num : SemVer} {version : Version}
    (y : Bool) (h : Version.find_by_num db cid num = .ok (some version)) :
    Version.find_by_num
      { db with versions := db.versions.map fun r =>
          if r.id == version.id then { r with yanked := y } else r }
      cid num = .ok (some { version with yanked := y }) := by
  unfold Version.find_by_num at h ⊢
  dsimp only at h ⊢
  rw [find?_map_pres _ _ (fun x => by by_cases hx : (x.id == version.id) = true <;> simp [hx])]
  cases hfind : db.versions.find? fun r =>
      r.crate_id == cid && r.num == semverToString num with
  | none => rw [hfind] at h; dsimp only at h; simp at h
  | some r =>
    rw [hfind] at h
    dsimp only at h
    rw [Option.map_some']
    dsimp only
    cases hrow : from_row r with
    | ok v =>
      rw [hrow] at h
      dsimp only at h
      have hv : v = version := by injection h with h2; injection h2
      subst hv
      have hid : (r.id == v.id) = true := by
        rw [beq_iff_eq]
        exact (from_row_fields hrow).1.symm
      rw [if_pos hid, from_row_set_yanked y hrow]
    | err e => rw [hrow] at h; dsimp only at h; simp at h
    | panicked => rw [hrow] at h; dsimp only at h; simp at h

theorem apiPath_inj (crate_name tail : String) {n₁ n₂ : String}
    (h : apiPath crate_name n₁ tail = apiPath crate_name n₂ tail) : n₁ = n₂ := by
  unfold apiPath at h
  have hd := congrArg String.data h
  simp only [String.data_append] at hd
  have h₁ := List.append_cancel_right hd
  have h₂ := List.append_cancel_right h₁
  have h₃ := List.append_cancel_left h₂
  exact String.ext h₃

/-! ### Claims -/

/-- C2: for every yank or unyank call whose acting identity is not among
the crate's owners, `modify_yank` fails with the Unauthorized error
(`human("must already be an owner to yank or unyank")`), the database —
hence the version's yanked flag — is unchanged, and the event trace is
empty, so the index synchronizer is never invoked. -/
theorem claim_C2_unauthorized_no_mutation (krate : CrateRec) (version : Version)
    (user : UserRec) (yanked : Bool) (faults : Faults) (db : DB)
    (h : ∀ u ∈ krate.owners, u.id ≠ user.id) :
    modify_yank krate version user yanked faults db =
      (.err (.human "must already be an owner to yank or unyank"), db, []) := by
  have hany : (krate.owners.any fun u => u.id == user.id) = false := by
    rw [List.any_eq_false]
    intro u hu
    simpa using h u hu
  simp [modify_yank, hany]

theorem claim_C2_witness :
    modify_yank sampleCrate sampleVersion otherUser true noFaults sampleDB =
      (.err (.human "must already be an owner to yank or unyank"), sampleDB, []) :=
  claim_C2_unauthorized_no_mutation sampleCrate sampleVersion otherUser true noFaults
    sampleDB (by decide)

/-- C6 counterexample: on a concrete row whose feature blob is present but
fails to deserialize, `from_row` panics (the `unwrap()` at
`src/version.rs` line 193); it does not yield an `Internal` error of the
error taxonomy, contrary to the claim. -/
theorem claim_C6_counterexample :
    from_row badFeatureRow = .panicked ∧
    (from_row badFeatureRow).isInternalErr = false :=
  ⟨rfl, rfl⟩

/-- C6 (amended): for every stored version row whose feature blob is
present but fails to deserialize, reading the row panics (a crash), rather
than yielding an `Internal` error. -/
theorem claim_C6_bad_blob_panics (row : VersionRow) (blob : Json)
    (hb : row.features = some blob) (hd : json_decode blob = none) :
    from_row row = .panicked := by
  unfold from_row
  rw [hb]
  dsimp only
  rw [hd]

theorem claim_C6_witness : from_row badFeatureRow = .panicked :=
  claim_C6_bad_blob_panics badFeatureRow (Json.num 3) rfl rfl

/-- C7: `find_by_num` returns `Ok(None)`, not an error, when no row has
the given crate id and the canonical string of the given semver; and the
lookup depends on the supplied semver only through its parsed value, so
any two spellings that parse to the same version find the same row. -/
theorem claim_C7_find_by_num_absence (db : DB) (cid : Int) (num : SemVer)
    (s₁ s₂ : String) (v₁ v₂ : SemVer) :
    ((∀ r ∈ db.versions, ¬(r.crate_id = cid ∧ r.num = semverToString num)) →
      Version.find_by_num db cid num = .ok none) ∧
    (semverParse s₁ = some v₁ → semverParse s₂ = some v₂ → v₁ = v₂ →
      Version.find_by_num db cid v₁ = Version.find_by_num db cid v₂) := by
  constructor
  · intro h
    unfold Version.find_by_num
    dsimp only
    have hnone : (db.versions.find? fun r =>
        r.crate_id == cid && r.num == semverToString num) = none := by
      rw [List.find?_eq_none]
      intro r hr
      have hr' := h r hr
      simp only [Bool.and_eq_true, beq_iff_eq]
      tauto
    rw [hnone]
  · intro h₁ h₂ h₃
    rw [h₃]

theorem claim_C7_witness :
    Version.find_by_num sampleDB 2 ⟨1, 0, 0⟩ = .ok none ∧
    (semverParse "01.0.0" = some ⟨1, 0, 0⟩ ∧
      Version.find_by_num sampleDB 1 ⟨1, 0, 0⟩ = Version.find_by_num sampleDB 1 ⟨1, 0, 0⟩) :=
  ⟨(claim_C7_find_by_num_absence sampleDB 2 ⟨1, 0, 0⟩ "1.0.0" "01.0.0" ⟨1, 0, 0⟩ ⟨1, 0, 0⟩).1
      (by decide),
   by decide,
   (claim_C7_find_by_num_absence sampleDB 1 ⟨1, 0, 0⟩ "1.0.0" "01.0.0" ⟨1, 0, 0⟩ ⟨1, 0, 0⟩).2
      (by decide) (by decide) rfl⟩

/-- C10: whenever `modify_yank` (so `yank` or `unyank`) completes without
error, its success flag is `true` — also in the idempotent no-op case — so
the flag never reveals whether a state transition occurred. -/
theorem claim_C10_flag_always_true (krate : CrateRec) (version : Version)
    (user : UserRec) (yanked : Bool) (faults : Faults) (db : DB) (b : Bool)
    (h : (modify_yank krate version user yanked faults db).1 = .ok b) :
    b = true := by
  unfold modify_yank at h
  repeat' split at h
  all_goals simp_all

theorem claim_C10_witness :
    sampleVersion.yanked = false ∧ true = true :=
  ⟨rfl, claim_C10_flag_always_true sampleCrate sampleVersion sampleUser false noFaults
    sampleDB true rfl⟩

/-- C3: for every state-changing, authorized yank/unyank call, when the
relational update succeeds the trace is exactly the relational write of
the version's yanked flag followed by the index-synchronizer invocation
with (crate name, canonical version string, new flag); when the relational
update fails, the call errors, the database is unchanged (the transaction
rolls back) and the index synchronizer is never invoked. -/
theorem claim_C3_write_before_sync (krate : CrateRec) (version : Version)
    (user : UserRec) (yanked : Bool) (faults : Faults) (db : DB)
    (hauth : (krate.owners.any fun u => u.id == user.id) = true)
    (hchange : version.yanked ≠ yanked) :
    (faults.yankUpdateFails = false →
      (modify_yank krate version user yanked faults db).2.2 =
        [.relWrite version.id yanked,
         .indexSync krate.name (semverToString version.num) yanked]) ∧
    (faults.yankUpdateFails = true →
      (modify_yank krate version user yanked faults db).1 = .err .dbError ∧
      (modify_yank krate version user yanked faults db).2.1 = db ∧
      countIndexSyncs (modify_yank krate version user yanked faults db).2.2 = 0) := by
  have hbne : (version.yanked != yanked) = true := by
    simpa [bne_iff_ne] using hchange
  constructor
  · intro hok
    by_cases hg : faults.gitYankFails = true
    · simp [modify_yank, Version.yank, gitYank, hauth, hbne, hok, hg]
    · have hg' : faults.gitYankFails = false := by simpa using hg
      simp [modify_yank, Version.yank, gitYank, hauth, hbne, hok, hg']
  · intro hbad
    refine ⟨?_, ?_, ?_⟩ <;>
      simp [modify_yank, Version.yank, gitYank, hauth, hbne, hbad, countIndexSyncs]

theorem claim_C3_witness :
    (modify_yank sampleCrate sampleVersion sampleUser true noFaults sampleDB).2.2 =
      [.relWrite 1 true, .indexSync "demo" "1.0.0" true] ∧
    ((modify_yank sampleCrate sampleVersion sampleUser true
        ⟨false, [], true, false⟩ sampleDB).1 = .err .dbError ∧
     (modify_yank sampleCrate sampleVersion sampleUser true
        ⟨false, [], true, false⟩ sampleDB).2.1 = sampleDB ∧
     countIndexSyncs (modify_yank sampleCrate sampleVersion sampleUser true
        ⟨false, [], true, false⟩ sampleDB).2.2 = 0) :=
  ⟨(claim_C3_write_before_sync sampleCrate sampleVersion sampleUser true noFaults sampleDB
      (by decide) (by decide)).1 rfl,
   (claim_C3_write_before_sync sampleCrate sampleVersion sampleUser true
      ⟨false, [], true, false⟩ sampleDB (by decide) (by decide)).2 rfl⟩

/-- C9: `encodable` builds the download path and the three link strings by
the fixed template `/api/v1/crates/{crate_name}/{num}/{tail}` from the
crate name and the canonical semver string, and, for a fixed crate name,
two versions with different canonical semver strings never produce
colliding derived links. -/
theorem claim_C9_encoder_links (v₁ v₂ : Version) (crate_name : String) :
    ((v₁.encodable crate_name).dl_path =
        apiPath crate_name (semverToString v₁.num) "download" ∧
     (v₁.encodable crate_name).links.dependencies =
        apiPath crate_name (semverToString v₁.num) "dependencies" ∧
     (v₁.encodable crate_name).links.version_downloads =
        apiPath crate_name (semverToString v₁.num) "downloads" ∧
     (v₁.encodable crate_name).links.authors =
        apiPath crate_name (semverToString v₁.num) "authors") ∧
    (semverToString v₁.num ≠ semverToString v₂.num →
      (v₁.encodable crate_name).links.dependencies ≠
        (v₂.encodable crate_name).links.dependencies ∧
      (v₁.encodable crate_name).links.version_downloads ≠
        (v₂.encodable crate_name).links.version_downloads ∧
      (v₁.encodable crate_name).links.authors ≠
        (v₂.encodable crate_name).links.authors) := by
  have hdep : ∀ w : Version, (Version.encodable w crate_name).links.dependencies =
      apiPath crate_name (semverToString w.num) "dependencies" := by
    intro w
    apply String.ext
    simp [Version.encodable, apiPath, String.data_append, List.append_assoc]
  have hdl : ∀ w : Version, (Version.encodable w crate_name).dl_path =
      apiPath crate_name (semverToString w.num) "download" := by
    intro w
    apply String.ext
    simp [Version.encodable, apiPath, String.data_append, List.append_assoc]
  have hvd : ∀ w : Version, (Version.encodable w crate_name).links.version_downloads =
      apiPath crate_name (semverToString w.num) "downloads" := by
    intro w
    apply String.ext
    simp [Version.encodable, apiPath, String.data_append, List.append_assoc]
  have hau : ∀ w : Version, (Version.encodable w crate_name).links.authors =
      apiPath crate_name (semverToString w.num) "authors" := by
    intro w
    apply String.ext
    simp [Version.encodable, apiPath, String.data_append, List.append_assoc]
  refine ⟨⟨hdl v₁, hdep v₁, hvd v₁, hau v₁⟩, fun hne => ⟨?_, ?_, ?_⟩⟩
  · rw [hdep v₁, hdep v₂]
    exact fun heq => hne (apiPath_inj crate_name "dependencies" heq)
  · rw [hvd v₁, hvd v₂]
    exact fun heq => hne (apiPath_inj crate_name "downloads" heq)
  · rw [hau v₁, hau v₂]
    exact fun heq => hne (apiPath_inj crate_name "authors" heq)

theorem from_row_mk (i c : Int) (num : SemVer) (u cr d : Int) (f : FeatureMap) (y : Bool) :
    from_row ⟨i, c, semverToString num, u, cr, d, some (json_encode f), y⟩ =
      .ok ⟨i, c, num, u, cr, d, f, y⟩ := by
  unfold from_row fromRowNum
  dsimp only
  rw [json_decode_encode]
  dsimp only
  rw [semverParse_toString]

theorem addAuthorsLoop_ok (v : Version) (faults : Faults) (authors : List String)
    (h : ∀ a ∈ authors, faults.authorFailures.contains a = false) :
    ∀ db : DB, addAuthorsLoop v faults authors db =
      (.ok (), { db with version_authors :=
        db.version_authors ++ authors.map fun n => ⟨v.id, none, n⟩ }) := by
  induction authors with
  | nil => intro db; simp [addAuthorsLoop]
  | cons a rest ih =>
    intro db
    have ha : faults.authorFailures.contains a = false := h a (List.mem_cons_self a rest)
    have hrest := ih fun b hb => h b (List.mem_cons_of_mem a hb)
    simp only [addAuthorsLoop, Version.add_author, ha, Bool.false_eq_true, if_false,
      hrest, List.map_cons]
    simp [List.append_assoc]

theorem addAuthorsLoop_err_eq (v : Version) (faults : Faults) (authors : List String)
    (h : ∃ a ∈ authors, faults.authorFailures.contains a = true) (db : DB) :
    addAuthorsLoop v faults authors db =
      (.err .dbError, (addAuthorsLoop v faults authors db).2) := by
  induction authors generalizing db with
  | nil => simp at h
  | cons a rest ih =>
    by_cases ha : faults.authorFailures.contains a = true
    · unfold addAuthorsLoop Version.add_author
      rw [if_pos ha]
    · have ha' : faults.authorFailures.contains a = false := by simpa using ha
      have hrest : ∃ b ∈ rest, faults.authorFailures.contains b = true := by
        rcases h with ⟨x, hx, hfx⟩
        rcases List.mem_cons.mp hx with rfl | hx'
        · rw [ha'] at hfx; cases hfx
        · exact ⟨x, hx', hfx⟩
      unfold addAuthorsLoop Version.add_author
      rw [if_neg (by simpa using ha')]
      exact ih hrest _

theorem insert_ok_eq (db : DB) (faults : Faults) (now cid : Int) (num : SemVer)
    (features : FeatureMap) (authors : List String)
    (h₁ : faults.insertNoRow = false)
    (h₂ : ∀ a ∈ authors, faults.authorFailures.contains a = false) :
    Version.insert db faults now cid num features authors =
      (.ok ⟨db.nextId, cid, num, now, now, 0, features, false⟩,
       { versions := db.versions ++ [⟨db.nextId, cid, semverToString num, now, now, 0,
           some (json_encode features), false⟩],
         version_authors := db.version_authors ++ authors.map fun n => ⟨db.nextId, none, n⟩,
         nextId := db.nextId + 1 }) := by
  unfold Version.insert
  rw [if_neg (by simp [h₁])]
  dsimp only
  rw [from_row_mk]
  dsimp only
  rw [addAuthorsLoop_ok _ _ _ h₂]

theorem claim_C9_witness :
    (sampleVersion.encodable "demo").dl_path =
      apiPath "demo" (semverToString sampleVersion.num) "download" ∧
    (sampleVersion.encodable "demo").links.dependencies ≠
      (sampleVersion2.encodable "demo").links.dependencies :=
  ⟨(claim_C9_encoder_links sampleVersion sampleVersion2 "demo").1.1,
   ((claim_C9_encoder_links sampleVersion sampleVersion2 "demo").2 (by decide)).1⟩

/-- C4: a successful `insert` persists exactly one version row with
`downloads = 0`, `created_at = updated_at = now`, the serialized feature
mapping, and exactly one author row per supplied name (in order); and if
the insert statement returns no row, `insert` fails with
`internal("no version returned")` and persists nothing. -/
theorem claim_C4_insert_row_shape (db : DB) (faults : Faults) (now cid : Int)
    (num : SemVer) (features : FeatureMap) (authors : List String) :
    (faults.insertNoRow = false →
     (∀ a ∈ authors, faults.authorFailures.contains a = false) →
      Version.insert db faults now cid num features authors =
        (.ok ⟨db.nextId, cid, num, now, now, 0, features, false⟩,
         { versions := db.versions ++ [⟨db.nextId, cid, semverToString num, now, now, 0,
             some (json_encode features), false⟩],
           version_authors := db.version_authors ++
             authors.map fun n => ⟨db.nextId, none, n⟩,
           nextId := db.nextId + 1 })) ∧
    (faults.insertNoRow = true →
      Version.insert db faults now cid num features authors =
        (.err (.internal "no version returned"), db)) := by
  constructor
  · exact insert_ok_eq db faults now cid num features authors
  · intro h₁
    unfold Version.insert
    rw [if_pos (by simp [h₁])]

theorem claim_C4_witness :
    Version.insert sampleDB noFaults 5 1 ⟨2, 0, 0⟩ sampleFeatures ["alice", "bob"] =
      (.ok ⟨sampleDB.nextId, 1, ⟨2, 0, 0⟩, 5, 5, 0, sampleFeatures, false⟩,
       { versions := sampleDB.versions ++ [⟨sampleDB.nextId, 1, semverToString ⟨2, 0, 0⟩,
           5, 5, 0, some (json_encode sampleFeatures), false⟩],
         version_authors := sampleDB.version_authors ++
           (["alice", "bob"].map fun n => ⟨sampleDB.nextId, none, n⟩),
         nextId := sampleDB.nextId + 1 }) ∧
    Version.insert sampleDB ⟨true, [], false, false⟩ 5 1 ⟨2, 0, 0⟩ sampleFeatures
        ["alice", "bob"] =
      (.err (.internal "no version returned"), sampleDB) :=
  ⟨(claim_C4_insert_row_shape sampleDB noFaults 5 1 ⟨2, 0, 0⟩ sampleFeatures
      ["alice", "bob"]).1 rfl (by decide),
   (claim_C4_insert_row_shape sampleDB ⟨true, [], false, false⟩ 5 1 ⟨2, 0, 0⟩
      sampleFeatures ["alice", "bob"]).2 rfl⟩

/-- C5: if inserting any author row fails, `insert` returns that storage
error, and committing the enclosing transaction leaves the database
exactly as it was — so no version is ever persisted with a proper subset
of its supplied authors. -/
theorem claim_C5_author_failure_aborts (db : DB) (faults : Faults) (now cid : Int)
    (num : SemVer) (features : FeatureMap) (authors : List String)
    (hrow : faults.insertNoRow = false)
    (hfail : ∃ a ∈ authors, faults.authorFailures.contains a = true) :
    (Version.insert db faults now cid num features authors).1 = .err .dbError ∧
    commitTxn db (Version.insert db faults now cid num features authors) = db := by
  have hmain : (Version.insert db faults now cid num features authors).1 =
      .err .dbError := by
    unfold Version.insert
    rw [if_neg (by simp [hrow])]
    dsimp only
    rw [from_row_mk]
    dsimp only
    rw [addAuthorsLoop_err_eq _ _ _ hfail]
  refine ⟨hmain, ?_⟩
  unfold commitTxn
  rw [hmain]

theorem claim_C5_witness :
    (Version.insert sampleDB bobFails 5 1 ⟨2, 0, 0⟩ sampleFeatures
        ["alice", "bob"]).1 = .err .dbError ∧
    commitTxn sampleDB (Version.insert sampleDB bobFails 5 1 ⟨2, 0, 0⟩ sampleFeatures
        ["alice", "bob"]) = sampleDB :=
  claim_C5_author_failure_aborts sampleDB bobFails 5 1 ⟨2, 0, 0⟩ sampleFeatures
    ["alice", "bob"] rfl (by decide)

/-- C8: for any valid semver spelling `s`, inserting the parsed version
and reloading it from its row yields a version whose canonical rendering
equals the normalized form of `s` — both for the value `insert` returns
and for the row `find_by_num` reloads. -/
theorem claim_C8_round_trip (db : DB) (now cid : Int) (s : String) (v : SemVer)
    (features : FeatureMap) (authors : List String)
    (hparse : semverParse s = some v)
    (hfresh : ∀ r ∈ db.versions, ¬(r.crate_id = cid ∧ r.num = semverToString v)) :
    ∃ ret db₂,
      Version.insert db noFaults now cid v features authors = (.ok ret, db₂) ∧
      some (semverToString ret.num) = normalizeSemver s ∧
      ∃ reloaded, Version.find_by_num db₂ cid v = .ok (some reloaded) ∧
        some (semverToString reloaded.num) = normalizeSemver s := by
  have hnorm : normalizeSemver s = some (semverToString v) := by
    unfold normalizeSemver
    rw [hparse, Option.map_some']
  have hins := insert_ok_eq db noFaults now cid v features authors rfl (by simp [noFaults])
  refine ⟨⟨db.nextId, cid, v, now, now, 0, features, false⟩, _, hins, by rw [hnorm], ?_⟩
  refine ⟨⟨db.nextId, cid, v, now, now, 0, features, false⟩, ?_, by rw [hnorm]⟩
  unfold Version.find_by_num
  dsimp only
  have hold : (db.versions.find? fun r =>
      r.crate_id == cid && r.num == semverToString v) = none := by
    rw [List.find?_eq_none]
    intro r hr
    have hr' := hfresh r hr
    simp only [Bool.and_eq_true, beq_iff_eq]
    tauto
  rw [find?_append_none _ hold, List.find?_cons_of_pos _ (by simp)]
  dsimp only
  rw [from_row_mk]

/-- C1: if a version's current yanked flag already equals the requested
state, `modify_yank` leaves the database unchanged and emits no relational
write and no index-synchronization call; and two successive `yank` calls —
the second operating on the version reloaded from the store — perform at
most one relational write and at most one index-synchronization call in
total. -/
theorem claim_C1_yank_idempotent (krate : CrateRec) (version : Version)
    (user : UserRec) (yanked : Bool) (faults faults₂ : Faults) (db : DB) :
    (version.yanked = yanked →
      (modify_yank krate version user yanked faults db).2 = (db, [])) ∧
    (Version.find_by_num db version.crate_id version.num = .ok (some version) →
      ∀ version₁,
        Version.find_by_num (modify_yank krate version user true faults db).2.1
            version.crate_id version.num = .ok (some version₁) →
        countRelWrites ((modify_yank krate version user true faults db).2.2 ++
          (modify_yank krate version₁ user true faults₂
            (modify_yank krate version user true faults db).2.1).2.2) ≤ 1 ∧
        countIndexSyncs ((modify_yank krate version user true faults db).2.2 ++
          (modify_yank krate version₁ user true faults₂
            (modify_yank krate version user true faults db).2.1).2.2) ≤ 1) := by
  constructor
  · intro hy
    have hbne : (version.yanked != yanked) = false := by simp [hy]
    by_cases hauth : (krate.owners.any fun u => u.id == user.id) = true
    · simp [modify_yank, hauth, hbne]
    · have hf : (krate.owners.any fun u => u.id == user.id) = false := by simpa using hauth
      simp [modify_yank, hf]
  · intro hfind version₁ hfind₁
    by_cases hauth : (krate.owners.any fun u => u.id == user.id) = true
    · by_cases hy : version.yanked = true
      · have hM : modify_yank krate version user true faults db = (.ok true, db, []) := by
          simp [modify_yank, hauth, hy]
        rw [hM] at hfind₁
        dsimp only at hfind₁
        have hv : version₁ = version := by
          have h2 := hfind.symm.trans hfind₁
          simp only [Outcome.ok.injEq, Option.some.injEq] at h2
          exact h2.symm
        subst hv
        rw [hM]
        dsimp only
        have hM₂ : modify_yank krate version₁ user true faults₂ db = (.ok true, db, []) := by
          simp [modify_yank, hauth, hy]
        rw [hM₂]
        simp [countRelWrites, countIndexSyncs]
      · have hyf : version.yanked = false := by simpa using hy
        by_cases hfail : faults.yankUpdateFails = true
        · have hM : modify_yank krate version user true faults db =
              (.err .dbError, db, []) := by
            simp [modify_yank, Version.yank, hauth, hyf, hfail]
          rw [hM] at hfind₁
          dsimp only at hfind₁
          have hv : version₁ = version := by
            have h2 := hfind.symm.trans hfind₁
            simp only [Outcome.ok.injEq, Option.some.injEq] at h2
            exact h2.symm
          subst hv
          rw [hM]
          dsimp only
          by_cases h2f : faults₂.yankUpdateFails = true
          · simp [modify_yank, Version.yank, hauth, hyf, h2f,
              countRelWrites, countIndexSyncs]
          · have h2f' : faults₂.yankUpdateFails = false := by simpa using h2f
            by_cases h2g : faults₂.gitYankFails = true
            · simp [modify_yank, Version.yank, gitYank, hauth, hyf, h2f', h2g,
                countRelWrites, countIndexSyncs]
            · have h2g' : faults₂.gitYankFails = false := by simpa using h2g
              simp [modify_yank, Version.yank, gitYank, hauth, hyf, h2f', h2g',
                countRelWrites, countIndexSyncs]
        · have hfail' : faults.yankUpdateFails = false := by simpa using hfail
          have hex : ∃ r, modify_yank krate version user true faults db =
              (r, { db with versions := db.versions.map fun rr =>
                      if rr.id == version.id then { rr with yanked := true } else rr },
               [.relWrite version.id true,
                .indexSync krate.name (semverToString version.num) true]) := by
            by_cases hg : faults.gitYankFails = true
            · exact ⟨.err .dbError,
                by simp [modify_yank, Version.yank, gitYank, hauth, hyf, hfail', hg]⟩
            · have hg' : faults.gitYankFails = false := by simpa using hg
              exact ⟨.ok true,
                by simp [modify_yank, Version.yank, gitYank, hauth, hyf, hfail', hg']⟩
          obtain ⟨r, hM⟩ := hex
          rw [hM] at hfind₁
          dsimp only at hfind₁
          have hup := find_by_num_yank_write true hfind
          have hv : version₁ = { version with yanked := true } := by
            have h2 := hup.symm.trans hfind₁
            simp only [Outcome.ok.injEq, Option.some.injEq] at h2
            exact h2.symm
          subst hv
          rw [hM]
          dsimp only
          have hno : (modify_yank krate { version with yanked := true } user true faults₂
              { db with versions := db.versions.map fun rr =>
                  if rr.id == version.id then { rr with yanked := true } else rr }).2.2 =
              [] := by
            simp [modify_yank, hauth]
          rw [hno]
          simp [countRelWrites, countIndexSyncs]
    · have hf : (krate.owners.any fun u => u.id == user.id) = false := by simpa using hauth
      simp [modify_yank, hf, countRelWrites, countIndexSyncs]

theorem claim_C1_witness :
    (modify_yank sampleCrate sampleVersion sampleUser false noFaults sampleDB).2 =
      (sampleDB, []) ∧
    (countRelWrites ((modify_yank sampleCrate sampleVersion sampleUser true noFaults
          sampleDB).2.2 ++
        (modify_yank sampleCrate ⟨1, 1, ⟨1, 0, 0⟩, 0, 0, 0, [], true⟩ sampleUser true
          noFaults
          (modify_yank sampleCrate sampleVersion sampleUser true noFaults
            sampleDB).2.1).2.2) ≤ 1 ∧
     countIndexSyncs ((modify_yank sampleCrate sampleVersion sampleUser true noFaults
          sampleDB).2.2 ++
        (modify_yank sampleCrate ⟨1, 1, ⟨1, 0, 0⟩, 0, 0, 0, [], true⟩ sampleUser true
          noFaults
          (modify_yank sampleCrate sampleVersion sampleUser true noFaults
            sampleDB).2.1).2.2) ≤ 1) :=
  ⟨(claim_C1_yank_idempotent sampleCrate sampleVersion sampleUser false noFaults noFaults
      sampleDB).1 rfl,
   (claim_C1_yank_idempotent sampleCrate sampleVersion sampleUser false noFaults noFaults
      sampleDB).2 rfl ⟨1, 1, ⟨1, 0, 0⟩, 0, 0, 0, [], true⟩ rfl⟩

theorem claim_C8_witness :
    ∃ ret db₂,
      Version.insert sampleDB noFaults 5 1 ⟨1, 2, 3⟩ sampleFeatures ["alice"] =
        (.ok ret, db₂) ∧
      some (semverToString ret.num) = normalizeSemver "01.2.3" ∧
      ∃ reloaded, Version.find_by_num db₂ 1 ⟨1, 2, 3⟩ = .ok (some reloaded) ∧
        some (semverToString reloaded.num) = normalizeSemver "01.2.3" :=
  claim_C8_round_trip sampleDB 5 1 "01.2.3" ⟨1, 2, 3⟩ sampleFeatures ["alice"]
    (by decide) (by decide)
